import Mathlib

/-!
Verification of the `stream-lines` line-splitting stream transformer
(`src/lib.rs`). The stateful Rust code is shallowly embedded: the
`futures 0.1` poll protocol becomes explicit state passing, bytes are
natural numbers, and the injected decode hook `fn(Vec<u8>) -> Result<O, E>`
becomes a Lean function into `Except`.
-/

set_option maxHeartbeats 2000000

namespace StreamLines

/-- The line-feed byte, `const LF: u8 = b'\n'`. -/
def LF : Nat := 10

/-- The carriage-return byte, `const CR: u8 = b'\r'`. -/
def CR : Nat := 13

/-- Readiness of a single poll, `futures::Async`. -/
inductive Async (α : Type) : Type
  | notReady : Async α
  | ready : α → Async α
deriving Repr, DecidableEq

/-- One poll of a stream with state type `σ`, item type `χ` and error type
`ε`: the result `Result<Async<Option<Item>>, Error>` together with the
updated stream state. -/
abbrev PollFn (σ χ ε : Type) : Type := σ → Except ε (Async (Option χ)) × σ

/-- `futures::stream::Fuse`: the wrapped stream plus the latched `done` flag. -/
structure Fuse (σ : Type) : Type where
  stream : σ
  done : Bool

/-- `Fuse::poll`: once `done` is set, report end-of-stream without polling
the inner stream; otherwise poll it, latching `done` when it reports
end-of-stream. -/
def Fuse.poll {σ χ ε : Type} (pollS : PollFn σ χ ε) (f : Fuse σ) :
    Except ε (Async (Option χ)) × Fuse σ :=
  if f.done then (Except.ok (Async.ready none), f)
  else
    match pollS f.stream with
    | (Except.ok (Async.ready none), s) => (Except.ok (Async.ready none), ⟨s, true⟩)
    | (r, s) => (r, ⟨s, f.done⟩)

/-- The `Lines` stream transformer (`struct Lines`): the pending byte
buffer, the fused inner stream, and the injected decode hook `into`. -/
structure Lines (σ O E : Type) : Type where
  buffered : Option (List Nat)
  stream : Fuse σ
  into : List Nat → Except E O

/-- `Lines::new`: empty buffer, source wrapped in fuse semantics. -/
def Lines.new {σ O E : Type} (stream : σ) (into : List Nat → Except E O) :
    Lines σ O E :=
  ⟨none, ⟨stream, false⟩, into⟩

/-- `buffer.splitn(2, |c| *c == LF)` on a byte slice: the bytes before the
first line feed, paired with `some` remainder exactly when a line feed
occurs (for a slice, `splitn` always yields a first piece, so the head is
total). -/
def splitFirstLF : List Nat → List Nat × Option (List Nat)
  | [] => ([], none)
  | c :: rest =>
    if c = LF then ([], some rest)
    else
      let fs := splitFirstLF rest
      (c :: fs.1, fs.2)

/-- `if let Some(&CR) = line.last() { line.pop(); }`. -/
def stripCR (line : List Nat) : List Nat :=
  if line.getLast? = some CR then line.dropLast else line

/-- `Lines::next`: take the buffer out, split it at the first line feed,
strip a trailing carriage return from the head, and either emit the decoded
head (re-buffering the tail when a delimiter was found, or on `flush`
leaving the buffer absent) or put the untouched buffer back. -/
def Lines.next {σ O E : Type} (l : Lines σ O E) (flush : Bool) :
    Option (Except E O) × Lines σ O E :=
  match l.buffered with
  | some buffer =>
    match splitFirstLF buffer with
    | (first, some second) =>
      (some (l.into (stripCR first)), { l with buffered := some second })
    | (first, none) =>
      if flush then (some (l.into (stripCR first)), { l with buffered := none })
      else (none, l)
  | none => (none, l)

/-- `<Lines as Stream>::poll`. `toBytes` is the `AsRef<[u8]>` view of an
inner item and `convE` the `From`-conversion of decode errors into the
stream's error type. -/
def Lines.poll {σ χ O E ε : Type} (pollS : PollFn σ χ ε)
    (toBytes : χ → List Nat) (convE : E → ε) (l : Lines σ O E) :
    Except ε (Async (Option O)) × Lines σ O E :=
  match Fuse.poll pollS l.stream with
  | (Except.error e, s) => (Except.error e, { l with stream := s })
  | (Except.ok Async.notReady, s) => (Except.ok Async.notReady, { l with stream := s })
  | (Except.ok (Async.ready none), s) =>
    match Lines.next { l with stream := s } true with
    | (some (Except.ok line), l2) => (Except.ok (Async.ready (some line)), l2)
    | (some (Except.error err), l2) => (Except.error (convE err), l2)
    | (none, l2) => (Except.ok (Async.ready none), l2)
  | (Except.ok (Async.ready (some chunk)), s) =>
    let l1 : Lines σ O E :=
      match l.buffered with
      | some buffer => { l with stream := s, buffered := some (buffer ++ toBytes chunk) }
      | none => { l with stream := s, buffered := some (toBytes chunk) }
    match Lines.next l1 false with
    | (some (Except.ok line), l2) => (Except.ok (Async.ready (some line)), l2)
    | (some (Except.error err), l2) => (Except.error (convE err), l2)
    | (none, l2) => (Except.ok Async.notReady, l2)

/-- `futures::stream::iter_ok` over a list of byte chunks: yields each chunk
in order, then reports end-of-stream; it never errors and is never
not-ready. -/
def iterPoll {ε : Type} : PollFn (List (List Nat)) (List Nat) ε := fun cs =>
  match cs with
  | [] => (Except.ok (Async.ready none), [])
  | c :: rest => (Except.ok (Async.ready (some c)), rest)

/-- Outcome of pulling a stream to completion. -/
inductive RunResult (O ε : Type) : Type
  | completed : List O → RunResult O ε
  | errored : List O → ε → RunResult O ε
  | outOfFuel : List O → RunResult O ε
deriving Repr, DecidableEq

/-- Prepend one emitted line to a run outcome. -/
def RunResult.cons {O ε : Type} (line : O) : RunResult O ε → RunResult O ε
  | completed lines => completed (line :: lines)
  | errored lines e => errored (line :: lines) e
  | outOfFuel lines => outOfFuel (line :: lines)

/-- Pull the splitter over an `iterPoll` source until completion or error,
collecting the emitted lines in order; `fuel` bounds the number of polls. -/
def pullAll {O E ε : Type} (convE : E → ε) (fuel : Nat)
    (l : Lines (List (List Nat)) O E) : RunResult O ε :=
  match fuel with
  | 0 => RunResult.outOfFuel []
  | fuel + 1 =>
    match Lines.poll iterPoll id convE l with
    | (Except.error e, _) => RunResult.errored [] e
    | (Except.ok (Async.ready none), _) => RunResult.completed []
    | (Except.ok (Async.ready (some line)), l2) => (pullAll convE fuel l2).cons line
    | (Except.ok Async.notReady, l2) => pullAll convE fuel l2

/-- Concatenation of all chunks delivered by the source. -/
def flattenChunks : List (List Nat) → List Nat
  | [] => []
  | c :: rest => c ++ flattenChunks rest

/-- Split a byte sequence at every line feed, Rust `slice::split` style:
`n` delimiters yield `n + 1` pieces, including a trailing empty piece when
the sequence ends with a line feed. -/
def splitLF : List Nat → List (List Nat)
  | [] => [[]]
  | c :: rest =>
    let ps := splitLF rest
    if c = LF then [] :: ps
    else (c :: ps.headD []) :: ps.tail

/-- The line sequence the splitter actually emits for a chunk list (proved
below): nothing when no chunk is ever delivered, otherwise every `splitLF`
piece of the concatenation with a trailing carriage return stripped. -/
def emittedLines (cs : List (List Nat)) : List (List Nat) :=
  if cs = [] then [] else (splitLF (flattenChunks cs)).map stripCR

/-- Modelled from the spec: the line sequence its scenarios assign to
"splitting the concatenation at line-feed bytes" — the pieces between line
feeds with a carriage return immediately before a line feed stripped (P2),
the final undelimited piece kept verbatim (P3), and no line at all for a
trailing empty piece after a final line feed (scenarios 1, 4, 5). -/
def specLines (content : List Nat) : List (List Nat) :=
  match (splitLF content).getLast? with
  | some [] => ((splitLF content).dropLast).map stripCR
  | some t => ((splitLF content).dropLast).map stripCR ++ [t]
  | none => []

/-- The decode hook used in concrete runs where splitting itself is under
study: the identity on byte lists, never failing. -/
abbrev LinesOk : Type := Lines (List (List Nat)) (List Nat) Unit

/-- A decode hook that rejects exactly the line `"b"` (byte 98). -/
def failOnB : List Nat → Except Unit (List Nat) := fun bs =>
  if bs = [98] then Except.error () else Except.ok bs

/-! ### Pure lemmas about splitting and stripping -/

theorem splitFirstLF_none {b f : List Nat} (h : splitFirstLF b = (f, none)) :
    f = b ∧ LF ∉ b := by
  induction b generalizing f with
  | nil =>
    simp only [splitFirstLF, Prod.mk.injEq] at h
    exact ⟨h.1.symm, by simp⟩
  | cons c rest ih =>
    rcases hrest : splitFirstLF rest with ⟨f2, s2⟩
    by_cases hc : c = LF
    · simp [splitFirstLF, hc] at h
    · simp only [splitFirstLF, hc, if_false, hrest, Prod.mk.injEq] at h
      obtain ⟨h1, h2⟩ := h
      subst h2
      obtain ⟨he, hm⟩ := ih hrest
      subst he
      refine ⟨h1.symm, ?_⟩
      simp only [List.mem_cons, not_or]
      exact ⟨fun hh => hc hh.symm, hm⟩

theorem splitFirstLF_some {b f s : List Nat} (h : splitFirstLF b = (f, some s)) :
    b = f ++ LF :: s ∧ LF ∉ f := by
  induction b generalizing f s with
  | nil => simp [splitFirstLF] at h
  | cons c rest ih =>
    rcases hrest : splitFirstLF rest with ⟨f2, s2⟩
    by_cases hc : c = LF
    · subst hc
      rw [show splitFirstLF (LF :: rest) = ([], some rest) by simp [splitFirstLF]] at h
      obtain ⟨h1, h2⟩ := Prod.mk.injEq .. ▸ h
      subst h1
      obtain rfl := Option.some.inj h2
      exact ⟨rfl, by simp⟩
    · simp only [splitFirstLF, hc, if_false, hrest, Prod.mk.injEq] at h
      obtain ⟨h1, h2⟩ := h
      subst h2
      obtain ⟨he, hm⟩ := ih hrest
      subst h1
      refine ⟨by simp [he], ?_⟩
      simp only [List.mem_cons, not_or]
      exact ⟨fun hh => hc hh.symm, hm⟩

theorem splitFirstLF_no_LF {b : List Nat} (h : LF ∉ b) :
    splitFirstLF b = (b, none) := by
  induction b with
  | nil => rfl
  | cons c rest ih =>
    simp only [List.mem_cons, not_or] at h
    have hc : ¬c = LF := fun hh => h.1 hh.symm
    simp [splitFirstLF, hc, ih h.2]

theorem splitFirstLF_append {f s : List Nat} (h : LF ∉ f) :
    splitFirstLF (f ++ LF :: s) = (f, some s) := by
  induction f with
  | nil => simp [splitFirstLF]
  | cons c rest ih =>
    simp only [List.mem_cons, not_or] at h
    have hc : ¬c = LF := fun hh => h.1 hh.symm
    simp [splitFirstLF, hc, ih h.2]

theorem splitLF_append {f s : List Nat} (h : LF ∉ f) :
    splitLF (f ++ LF :: s) = f :: splitLF s := by
  induction f with
  | nil => simp [splitLF]
  | cons c rest ih =>
    simp only [List.mem_cons, not_or] at h
    have hc : ¬c = LF := fun hh => h.1 hh.symm
    simp [splitLF, hc, ih h.2]

theorem splitLF_no_LF {b : List Nat} (h : LF ∉ b) : splitLF b = [b] := by
  induction b with
  | nil => rfl
  | cons c rest ih =>
    simp only [List.mem_cons, not_or] at h
    have hc : ¬c = LF := fun hh => h.1 hh.symm
    simp [splitLF, hc, ih h.2]

/-! ### Characterizing a full pull-to-completion run over an `iterPoll` source -/

theorem run_absent {fuel : Nat} (d : Bool) (h : 1 ≤ fuel) :
    pullAll (id : Unit → Unit) fuel (⟨none, ⟨[], d⟩, Except.ok⟩ : LinesOk) =
      RunResult.completed [] := by
  obtain ⟨n, rfl⟩ : ∃ n, fuel = n + 1 := ⟨fuel - 1, by omega⟩
  cases d <;> simp [pullAll, Lines.poll, Fuse.poll, iterPoll, Lines.next]

theorem run_flush : ∀ (fuel : Nat) (b : List Nat) (d : Bool), b.length + 2 ≤ fuel →
    pullAll (id : Unit → Unit) fuel (⟨some b, ⟨[], d⟩, Except.ok⟩ : LinesOk) =
      RunResult.completed ((splitLF b).map stripCR) := by
  intro fuel
  induction fuel with
  | zero => intro b d h; exact absurd h (by omega)
  | succ n ih =>
    intro b d h
    rcases hsp : splitFirstLF b with ⟨f, sOpt⟩
    cases sOpt with
    | some s =>
      obtain ⟨hb, hnf⟩ := splitFirstLF_some hsp
      have hstep : pullAll (id : Unit → Unit) (n + 1)
            (⟨some b, ⟨[], d⟩, Except.ok⟩ : LinesOk)
          = (pullAll id n (⟨some s, ⟨[], true⟩, Except.ok⟩ : LinesOk)).cons (stripCR f) := by
        cases d <;> simp [pullAll, Lines.poll, Fuse.poll, iterPoll, Lines.next, hsp]
      have hlen : s.length + 2 ≤ n := by
        have h2 : b.length = f.length + (LF :: s).length := by rw [hb]; simp
        simp at h2
        omega
      rw [hstep, ih s true hlen]
      rw [show splitLF b = f :: splitLF s by rw [hb]; exact splitLF_append hnf]
      simp [RunResult.cons]
    | none =>
      obtain ⟨hf, hnf⟩ := splitFirstLF_none hsp
      rw [hf] at hsp
      have hstep : pullAll (id : Unit → Unit) (n + 1)
            (⟨some b, ⟨[], d⟩, Except.ok⟩ : LinesOk)
          = (pullAll id n (⟨none, ⟨[], true⟩, Except.ok⟩ : LinesOk)).cons (stripCR b) := by
        cases d <;> simp [pullAll, Lines.poll, Fuse.poll, iterPoll, Lines.next, hsp]
      rw [hstep, run_absent true (by omega), splitLF_no_LF hnf]
      simp [RunResult.cons]

theorem run_chunks : ∀ (cs : List (List Nat)) (fuel : Nat) (b : List Nat),
    cs.length + b.length + (flattenChunks cs).length + 2 ≤ fuel →
    pullAll (id : Unit → Unit) fuel (⟨some b, ⟨cs, false⟩, Except.ok⟩ : LinesOk) =
      RunResult.completed ((splitLF (b ++ flattenChunks cs)).map stripCR) := by
  intro cs
  induction cs with
  | nil =>
    intro fuel b h
    have hb : b.length + 2 ≤ fuel := by simp [flattenChunks] at h; omega
    simpa [flattenChunks] using run_flush fuel b false hb
  | cons c rest ih =>
    intro fuel b h
    obtain ⟨n, rfl⟩ : ∃ n, fuel = n + 1 := ⟨fuel - 1, by omega⟩
    rcases hsp : splitFirstLF (b ++ c) with ⟨f, sOpt⟩
    cases sOpt with
    | some s =>
      obtain ⟨hb, hnf⟩ := splitFirstLF_some hsp
      have hstep : pullAll (id : Unit → Unit) (n + 1)
            (⟨some b, ⟨c :: rest, false⟩, Except.ok⟩ : LinesOk)
          = (pullAll id n (⟨some s, ⟨rest, false⟩, Except.ok⟩ : LinesOk)).cons (stripCR f) := by
        simp [pullAll, Lines.poll, Fuse.poll, iterPoll, Lines.next, hsp]
      have hlen : rest.length + s.length + (flattenChunks rest).length + 2 ≤ n := by
        have h2 : (b ++ c).length = f.length + (LF :: s).length := by rw [hb]; simp
        simp [flattenChunks] at h2 h
        omega
      rw [hstep, ih n s hlen]
      have heq : b ++ flattenChunks (c :: rest) = f ++ LF :: (s ++ flattenChunks rest) := by
        show b ++ (c ++ flattenChunks rest) = _
        rw [← List.append_assoc, hb, List.append_assoc]
        rfl
      rw [heq, splitLF_append hnf]
      simp [RunResult.cons]
    | none =>
      obtain ⟨hf, hnf⟩ := splitFirstLF_none hsp
      rw [hf] at hsp
      have hstep : pullAll (id : Unit → Unit) (n + 1)
            (⟨some b, ⟨c :: rest, false⟩, Except.ok⟩ : LinesOk)
          = pullAll id n (⟨some (b ++ c), ⟨rest, false⟩, Except.ok⟩ : LinesOk) := by
        simp [pullAll, Lines.poll, Fuse.poll, iterPoll, Lines.next, hsp]
      have hlen : rest.length + (b ++ c).length + (flattenChunks rest).length + 2 ≤ n := by
        simp [flattenChunks] at h ⊢
        omega
      rw [hstep, ih n (b ++ c) hlen, List.append_assoc]
      rfl

theorem pull_new_eq_pull_empty (c : List Nat) (rest : List (List Nat)) (fuel : Nat) :
    pullAll (id : Unit → Unit) fuel (⟨none, ⟨c :: rest, false⟩, Except.ok⟩ : LinesOk) =
      pullAll id fuel (⟨some [], ⟨c :: rest, false⟩, Except.ok⟩ : LinesOk) := by
  cases fuel with
  | zero => rfl
  | succ n => simp [pullAll, Lines.poll, Fuse.poll, iterPoll, Lines.next]

theorem run_new (cs : List (List Nat)) (h : cs ≠ []) :
    pullAll (id : Unit → Unit) (cs.length + (flattenChunks cs).length + 2)
      (Lines.new cs Except.ok : LinesOk) =
      RunResult.completed ((splitLF (flattenChunks cs)).map stripCR) := by
  cases cs with
  | nil => exact absurd rfl h
  | cons c rest =>
    rw [show (Lines.new (c :: rest) Except.ok : LinesOk)
        = (⟨none, ⟨c :: rest, false⟩, Except.ok⟩ : LinesOk) from rfl]
    rw [pull_new_eq_pull_empty]
    have := run_chunks (c :: rest) ((c :: rest).length + (flattenChunks (c :: rest)).length + 2)
      [] (by simp)
    simpa using this

theorem stripCR_concat_CR (xs : List Nat) : stripCR (xs ++ [CR]) = xs := by
  simp [stripCR]

theorem stripCR_of_getLast_ne {xs : List Nat} (h : xs.getLast? ≠ some CR) :
    stripCR xs = xs := by
  simp [stripCR, h]

/-! ### Claim theorems -/

/-- C1 counterexample: for the single chunk `"a\n"` (bytes `[97, 10]`),
pulling the splitter to completion emits `["a", ""]` — the code yields a
trailing empty line after the final line feed — whereas splitting the
concatenation at line-feed bytes in the sense fixed by the spec's scenarios
(`specLines`) yields just `["a"]`. -/
theorem C1_counterexample :
    pullAll (id : Unit → Unit) 3 (Lines.new [[97, LF]] Except.ok : LinesOk) =
      RunResult.completed [[97], []] ∧
    specLines (flattenChunks [[97, LF]]) = [[97]] ∧
    ([[97], []] : List (List Nat)) ≠ [[97]] :=
  ⟨by decide, by decide, by decide⟩

/-- C1 (amended): pulling the splitter to completion emits no line when no
chunk is ever delivered, and otherwise exactly the `splitLF` pieces of the
concatenation of all chunks — one piece per line-feed byte plus the final
segment, including a trailing empty line when the concatenation ends in a
line feed — each piece with a trailing carriage return stripped; chunk
boundaries are otherwise ignored. -/
theorem C1_run_splits_concatenation (cs : List (List Nat)) :
    pullAll (id : Unit → Unit) (cs.length + (flattenChunks cs).length + 2)
      (Lines.new cs Except.ok : LinesOk) = RunResult.completed (emittedLines cs) := by
  cases cs with
  | nil => simpa [Lines.new, emittedLines] using run_absent false (by omega)
  | cons c rest =>
    rw [run_new (c :: rest) (by simp)]
    simp [emittedLines]

/-- C2 counterexample: a single empty chunk followed by source completion
emits one empty line (the present-but-empty buffer is flushed as a line),
not zero lines as the claim states. -/
theorem C2_counterexample :
    pullAll (id : Unit → Unit) 3 (Lines.new [[]] Except.ok : LinesOk) =
      RunResult.completed [[]] ∧
    (RunResult.completed [[]] : RunResult (List Nat) Unit) ≠ RunResult.completed [] :=
  ⟨by decide, by decide⟩

/-- C2 (amended): when the inner source is exhausted, a *present* buffered
tail — even an empty one — is flushed as exactly one additional line (with a
trailing carriage return stripped); only an *absent* buffer completes with
no extra line. In particular a single empty chunk followed by completion
yields one empty line. -/
theorem C2_final_flush (b : List Nat) (d : Bool) (hb : LF ∉ b) :
    pullAll (id : Unit → Unit) (b.length + 2)
      (⟨some b, ⟨[], d⟩, Except.ok⟩ : LinesOk) = RunResult.completed [stripCR b] ∧
    pullAll (id : Unit → Unit) 1 (⟨none, ⟨[], d⟩, Except.ok⟩ : LinesOk) =
      RunResult.completed [] ∧
    pullAll (id : Unit → Unit) 3 (Lines.new [[]] Except.ok : LinesOk) =
      RunResult.completed [[]] := by
  refine ⟨?_, run_absent d (by omega), by decide⟩
  have h2 := run_flush (b.length + 2) b d (by omega)
  rw [splitLF_no_LF hb] at h2
  simpa using h2

/-- C2 witness: flushing the buffered unterminated tail `"a"` after
exhaustion emits exactly the one line `"a"`. -/
theorem C2_witness :
    pullAll (id : Unit → Unit) 3 (⟨some [97], ⟨[], false⟩, Except.ok⟩ : LinesOk) =
      RunResult.completed [[97]] :=
  (C2_final_flush [97] false (by decide)).1

/-- C3 counterexample: the chunk `"a\r"` with no line feed anywhere, then
source completion: the flushed tail has its trailing carriage return
stripped and `"a"` is emitted, while the claim requires the carriage return
of a final flushed tail without line feed to be preserved verbatim. -/
theorem C3_counterexample :
    pullAll (id : Unit → Unit) 3 (Lines.new [[97, CR]] Except.ok : LinesOk) =
      RunResult.completed [[97]] ∧
    (RunResult.completed [[97]] : RunResult (List Nat) Unit) ≠
      RunResult.completed [[97, CR]] :=
  ⟨by decide, by decide⟩

/-- C3 (amended): every line the extraction step emits — whether delimited
by a line feed or flushed as the final tail — is `stripCR` of the bytes
before the first line feed of the buffer; `stripCR` removes exactly one
trailing carriage return and touches nothing else, so a carriage return
anywhere but directly before the delimiter (or, contrary to the claim, at
the very end of the flushed final tail) is preserved verbatim. -/
theorem C3_strip_only_trailing_CR :
    (∀ (b : List Nat) (st : Fuse (List (List Nat)))
        (into : List Nat → Except Unit (List Nat)) (flush : Bool)
        (r : Except Unit (List Nat)) (l2 : Lines (List (List Nat)) (List Nat) Unit),
      Lines.next ⟨some b, st, into⟩ flush = (some r, l2) →
      r = into (stripCR (splitFirstLF b).1)) ∧
    (∀ xs : List Nat, stripCR (xs ++ [CR]) = xs) ∧
    (∀ xs : List Nat, xs.getLast? ≠ some CR → stripCR xs = xs) := by
  refine ⟨?_, stripCR_concat_CR, fun xs h => stripCR_of_getLast_ne h⟩
  intro b st into flush r l2 h
  rcases hsp : splitFirstLF b with ⟨f, sOpt⟩
  cases sOpt with
  | some s =>
    simp [Lines.next, hsp] at h
    simp [hsp, h.1]
  | none =>
    cases flush with
    | true =>
      simp [Lines.next, hsp] at h
      simp [hsp, h.1]
    | false => simp [Lines.next, hsp] at h

/-- C3 witness: from the buffer `"a\r\nj"` the extraction emits `"a"`, the
carriage return directly before the line feed having been stripped. -/
theorem C3_witness :
    (Except.ok [97] : Except Unit (List Nat)) =
      Except.ok (stripCR (splitFirstLF [97, CR, LF, 106]).1) :=
  C3_strip_only_trailing_CR.1 [97, CR, LF, 106] ⟨[], false⟩ Except.ok false _ _ rfl

/-- C4 counterexample: the empty content can be delivered as no chunk at all
or as one empty chunk; the first run completes with no lines, the second
emits one empty line, so re-chunking the same content is not invariant at
this edge. -/
theorem C4_counterexample :
    flattenChunks [] = flattenChunks [[]] ∧
    pullAll (id : Unit → Unit) 2 (Lines.new ([] : List (List Nat)) Except.ok : LinesOk) =
      RunResult.completed [] ∧
    pullAll (id : Unit → Unit) 3 (Lines.new [([] : List Nat)] Except.ok : LinesOk) =
      RunResult.completed [[]] ∧
    (RunResult.completed [] : RunResult (List Nat) Unit) ≠ RunResult.completed [[]] :=
  ⟨by decide, by decide, by decide, by decide⟩

/-- C4 (amended): for any two *non-empty* chunkings of the same total byte
content (empty chunks allowed anywhere), pulling the splitter to completion
yields identical outcomes; only the zero-chunk delivery of empty content
differs from a delivery with chunks. -/
theorem C4_rechunking_independent (cs1 cs2 : List (List Nat)) (h1 : cs1 ≠ [])
    (h2 : cs2 ≠ []) (hj : flattenChunks cs1 = flattenChunks cs2) :
    pullAll (id : Unit → Unit) (cs1.length + (flattenChunks cs1).length + 2)
      (Lines.new cs1 Except.ok : LinesOk) =
    pullAll (id : Unit → Unit) (cs2.length + (flattenChunks cs2).length + 2)
      (Lines.new cs2 Except.ok : LinesOk) := by
  rw [run_new cs1 h1, run_new cs2 h2, hj]

/-- C4 witness: `"hi\nj"` delivered as one chunk or as four chunks (one of
them empty) produces the same completed run. -/
theorem C4_witness :
    ([[104, 105, LF, 106]] : List (List Nat)) ≠ [] ∧
    ([[104], [105, LF], [], [106]] : List (List Nat)) ≠ [] ∧
    flattenChunks [[104, 105, LF, 106]] = flattenChunks [[104], [105, LF], [], [106]] ∧
    pullAll (id : Unit → Unit) 7 (Lines.new [[104, 105, LF, 106]] Except.ok : LinesOk) =
      pullAll (id : Unit → Unit) 10
        (Lines.new [[104], [105, LF], [], [106]] Except.ok : LinesOk) :=
  ⟨by decide, by decide, by decide,
    C4_rechunking_independent [[104, 105, LF, 106]] [[104], [105, LF], [], [106]]
      (by decide) (by decide) (by decide)⟩

/-- C5: a poll that consumes a chunk whose appended bytes contain a line
feed emits exactly the first line (the poll result carries one item), and
the entire remainder after that first delimiter — including any further
complete lines — stays buffered; pulling the resulting state to completion
then surfaces exactly those remaining lines, one poll each. -/
theorem C5_one_line_per_poll (ob : Option (List Nat)) (c : List Nat)
    (rest : List (List Nat)) (f s : List Nat)
    (h : splitFirstLF (ob.getD [] ++ c) = (f, some s)) :
    Lines.poll iterPoll id (id : Unit → Unit)
        (⟨ob, ⟨c :: rest, false⟩, Except.ok⟩ : LinesOk)
      = (Except.ok (Async.ready (some (stripCR f))),
          (⟨some s, ⟨rest, false⟩, Except.ok⟩ : LinesOk)) ∧
    pullAll (id : Unit → Unit) (rest.length + s.length + (flattenChunks rest).length + 2)
        (⟨some s, ⟨rest, false⟩, Except.ok⟩ : LinesOk)
      = RunResult.completed ((splitLF (s ++ flattenChunks rest)).map stripCR) := by
  refine ⟨?_, run_chunks rest _ s (by omega)⟩
  cases ob with
  | none =>
    simp only [Option.getD_none, List.nil_append] at h
    simp [Lines.poll, Fuse.poll, iterPoll, Lines.next, h]
  | some buf =>
    simp only [Option.getD_some] at h
    simp [Lines.poll, Fuse.poll, iterPoll, Lines.next, h]

/-- C5 witness: the chunk `"a\nb\nc\n"` completes three lines at once; the
poll that consumes it emits only `"a"` and leaves `"b\nc\n"` buffered. -/
theorem C5_witness :
    Lines.poll iterPoll id (id : Unit → Unit)
        (⟨none, ⟨[[97, LF, 98, LF, 99, LF]], false⟩, Except.ok⟩ : LinesOk)
      = (Except.ok (Async.ready (some (stripCR [97]))),
          (⟨some [98, LF, 99, LF], ⟨[], false⟩, Except.ok⟩ : LinesOk)) :=
  (C5_one_line_per_poll none [97, LF, 98, LF, 99, LF] [] [97] [98, LF, 99, LF]
    (by decide)).1

/-- C6 counterexample: with a decode hook rejecting exactly `"b"`, the
chunk `"b\na\n"` makes the first poll return the converted decode error, yet
the very next poll successfully emits the decoded line `"a"` — an error does
not make the sequence terminal. -/
theorem C6_counterexample :
    (Lines.poll iterPoll id (id : Unit → Unit)
        (Lines.new [[98, LF, 97, LF]] failOnB)).1 = Except.error () ∧
    (Lines.poll iterPoll id (id : Unit → Unit)
        ((Lines.poll iterPoll id (id : Unit → Unit)
          (Lines.new [[98, LF, 97, LF]] failOnB)).2)).1
      = Except.ok (Async.ready (some [97])) :=
  ⟨rfl, rfl⟩

/-- C6 (amended): an error returned from a poll is not latched anywhere in
the splitter's state: the buffer has advanced past the failed line, and for
any buffer holding a failing line followed by a decodable one the poll after
the error-returning poll emits the next line successfully — the sequence
resumes if the consumer keeps polling. -/
theorem C6_errors_not_latched (into : List Nat → Except Unit (List Nat))
    (x y v : List Nat) (d : Bool) (hx : LF ∉ x) (hy : LF ∉ y)
    (hfail : into (stripCR x) = Except.error ())
    (hok : into (stripCR y) = Except.ok v) :
    (Lines.poll iterPoll id (id : Unit → Unit)
        (⟨some (x ++ LF :: (y ++ [LF])), ⟨[], d⟩, into⟩ :
          Lines (List (List Nat)) (List Nat) Unit)).1 = Except.error () ∧
    (Lines.poll iterPoll id (id : Unit → Unit)
        ((Lines.poll iterPoll id (id : Unit → Unit)
          (⟨some (x ++ LF :: (y ++ [LF])), ⟨[], d⟩, into⟩ :
            Lines (List (List Nat)) (List Nat) Unit)).2)).1
      = Except.ok (Async.ready (some v)) := by
  have h1 : splitFirstLF (x ++ LF :: (y ++ [LF])) = (x, some (y ++ [LF])) :=
    @splitFirstLF_append x (y ++ [LF]) hx
  have h2 : splitFirstLF (y ++ [LF]) = (y, some []) := @splitFirstLF_append y [] hy
  have hstate : (Lines.poll iterPoll id (id : Unit → Unit)
      (⟨some (x ++ LF :: (y ++ [LF])), ⟨[], d⟩, into⟩ :
        Lines (List (List Nat)) (List Nat) Unit)).2
      = ⟨some (y ++ [LF]), ⟨[], true⟩, into⟩ := by
    cases d <;> simp [Lines.poll, Fuse.poll, iterPoll, Lines.next, h1, hfail]
  constructor
  · cases d <;> simp [Lines.poll, Fuse.poll, iterPoll, Lines.next, h1, hfail]
  · rw [hstate]
    simp [Lines.poll, Fuse.poll, iterPoll, Lines.next, h2, hok]

/-- C6 witness: the failing-then-succeeding polls, instantiated with the
decode hook rejecting `"b"` and the buffered bytes `"b\na\n"`. -/
theorem C6_witness :
    (Lines.poll iterPoll id (id : Unit → Unit)
        (⟨some [98, LF, 97, LF], ⟨[], false⟩, failOnB⟩ :
          Lines (List (List Nat)) (List Nat) Unit)).1 = Except.error () ∧
    (Lines.poll iterPoll id (id : Unit → Unit)
        ((Lines.poll iterPoll id (id : Unit → Unit)
          (⟨some [98, LF, 97, LF], ⟨[], false⟩, failOnB⟩ :
            Lines (List (List Nat)) (List Nat) Unit)).2)).1
      = Except.ok (Async.ready (some [97])) :=
  C6_errors_not_latched failOnB [98] [97] [97] false (by decide) (by decide)
    rfl rfl

/-- C7: the fuse latches exhaustion. Once `done` is set, polling the fuse
answers end-of-stream and leaves the state untouched without consulting the
inner poll function at all (the splitter's poll result is then independent
of it), and `done` is set exactly when the inner stream first reports
end-of-stream; the wrapper's own poll preserves the latched stream state, so
the inner source is never polled again however often the splitter is. -/
theorem C7_fuse_latches_completion {σ χ O E ε : Type}
    (pollS pollT : PollFn σ χ ε) (toBytes : χ → List Nat) (convE : E → ε)
    (f : Fuse σ) (l : Lines σ O E) :
    (f.done = true → Fuse.poll pollS f = (Except.ok (Async.ready none), f)) ∧
    (∀ s2, f.done = false → pollS f.stream = (Except.ok (Async.ready none), s2) →
      Fuse.poll pollS f = (Except.ok (Async.ready none), ⟨s2, true⟩)) ∧
    (l.stream.done = true →
      Lines.poll pollS toBytes convE l = Lines.poll pollT toBytes convE l) ∧
    (l.stream.done = true →
      (Lines.poll pollS toBytes convE l).2.stream = l.stream) := by
  refine ⟨?_, ?_, ?_, ?_⟩
  · intro h
    simp [Fuse.poll, h]
  · intro s2 h hpoll
    simp [Fuse.poll, h, hpoll]
  · intro h
    simp [Lines.poll, Fuse.poll, h]
  · intro h
    rcases l with ⟨ob, ⟨st, dn⟩, into⟩
    simp only at h
    subst h
    cases ob with
    | none => simp [Lines.poll, Fuse.poll, Lines.next]
    | some buffer =>
      rcases hsp : splitFirstLF buffer with ⟨ff, sOpt⟩
      cases sOpt with
      | some s =>
        cases hinto : into (stripCR ff) with
        | ok v => simp [Lines.poll, Fuse.poll, Lines.next, hsp, hinto]
        | error e => simp [Lines.poll, Fuse.poll, Lines.next, hsp, hinto]
      | none =>
        cases hinto : into (stripCR ff) with
        | ok v => simp [Lines.poll, Fuse.poll, Lines.next, hsp, hinto]
        | error e => simp [Lines.poll, Fuse.poll, Lines.next, hsp, hinto]

/-- C7 witness: with chunks still pending behind a latched fuse, the fuse
answers end-of-stream without touching them, and the splitter's poll result
is the same under two different inner poll functions. -/
theorem C7_witness :
    Fuse.poll (iterPoll : PollFn (List (List Nat)) (List Nat) Unit)
        ⟨[[97]], true⟩ = (Except.ok (Async.ready none), ⟨[[97]], true⟩) ∧
    Lines.poll iterPoll id (id : Unit → Unit)
        (⟨none, ⟨[[97]], true⟩, Except.ok⟩ : LinesOk)
      = Lines.poll (fun s => (Except.ok Async.notReady, s)) id id
          (⟨none, ⟨[[97]], true⟩, Except.ok⟩ : LinesOk) :=
  ⟨(C7_fuse_latches_completion iterPoll (fun s => (Except.ok Async.notReady, s))
      id id ⟨[[97]], true⟩ (⟨none, ⟨[[97]], true⟩, Except.ok⟩ : LinesOk)).1 rfl,
    (C7_fuse_latches_completion iterPoll (fun s => (Except.ok Async.notReady, s))
      id id ⟨[[97]], true⟩ (⟨none, ⟨[[97]], true⟩, Except.ok⟩ : LinesOk)).2.2.1 rfl⟩

/-- C8: when the decode hook fails on an extracted delimited line — on the
chunk path or on the completion-flush path — that poll returns the decode
error converted by `convE`, and the returned state's buffer already holds
the tail after the delimiter; the failed line's bytes are gone from the
state and are never retried. -/
theorem C8_decode_failure_advances_buffer {O E ε : Type}
    (into : List Nat → Except E O) (convE : E → ε) :
    (∀ (ob : Option (List Nat)) (c : List Nat) (rest : List (List Nat))
        (f s : List Nat) (e : E),
      splitFirstLF (ob.getD [] ++ c) = (f, some s) →
      into (stripCR f) = Except.error e →
      Lines.poll iterPoll id convE
          (⟨ob, ⟨c :: rest, false⟩, into⟩ : Lines (List (List Nat)) O E)
        = (Except.error (convE e), ⟨some s, ⟨rest, false⟩, into⟩)) ∧
    (∀ (b f s : List Nat) (e : E) (d : Bool),
      splitFirstLF b = (f, some s) →
      into (stripCR f) = Except.error e →
      Lines.poll iterPoll id convE
          (⟨some b, ⟨[], d⟩, into⟩ : Lines (List (List Nat)) O E)
        = (Except.error (convE e), ⟨some s, ⟨[], true⟩, into⟩)) := by
  constructor
  · intro ob c rest f s e hsp hfail
    cases ob with
    | none =>
      simp only [Option.getD_none, List.nil_append] at hsp
      simp [Lines.poll, Fuse.poll, iterPoll, Lines.next, hsp, hfail]
    | some buf =>
      simp only [Option.getD_some] at hsp
      simp [Lines.poll, Fuse.poll, iterPoll, Lines.next, hsp, hfail]
  · intro b f s e d hsp hfail
    cases d <;> simp [Lines.poll, Fuse.poll, iterPoll, Lines.next, hsp, hfail]

/-- C8 witness: decode of `"b"` fails on the chunk `"b\nc"`; the poll
returns the error and the buffer holds the post-delimiter tail `"c"`. -/
theorem C8_witness :
    splitFirstLF (Option.getD none [] ++ [98, LF, 99]) = ([98], some [99]) ∧
    Lines.poll iterPoll id (id : Unit → Unit)
        (⟨none, ⟨[[98, LF, 99]], false⟩, failOnB⟩ :
          Lines (List (List Nat)) (List Nat) Unit)
      = (Except.error (), ⟨some [99], ⟨[], false⟩, failOnB⟩) :=
  ⟨by decide,
    (C8_decode_failure_advances_buffer failOnB id).1 none [98, LF, 99] [] [98] [99] ()
      (by decide) rfl⟩

/-- C9 counterexample: one poll consuming the chunk `"a\nb\nc"` runs the
extraction on the just-appended bytes (it emits `"a"`), yet the buffer left
between pulls is `"b\nc"`, which still contains an embedded line-feed
delimiter — more than one pending fragment is buffered even though the first
extraction step has already run. -/
theorem C9_counterexample :
    Lines.poll iterPoll id (id : Unit → Unit)
        (Lines.new [[97, LF, 98, LF, 99]] Except.ok : LinesOk)
      = (Except.ok (Async.ready (some [97])),
          (⟨some [98, LF, 99], ⟨[], false⟩, Except.ok⟩ : LinesOk)) ∧
    LF ∈ ([98, LF, 99] : List Nat) :=
  ⟨rfl, by decide⟩

/-- C9 (amended): the buffer may hold several pending complete lines, namely
the leftover of an extraction that just emitted one line (they surface one
per later poll); what does hold between pulls is that whenever a poll
consumed a chunk and reported not-ready — i.e. the extraction emitted
nothing — the resulting buffer is a single fragment with no embedded
line-feed delimiter. -/
theorem C9_no_delimiter_when_not_ready {O E ε : Type}
    (into : List Nat → Except E O) (convE : E → ε) (ob : Option (List Nat))
    (cs : List (List Nat)) (dn : Bool) (b2 : List Nat)
    (hres : (Lines.poll iterPoll id convE
        (⟨ob, ⟨cs, dn⟩, into⟩ : Lines (List (List Nat)) O E)).1
      = Except.ok Async.notReady)
    (hbuf : (Lines.poll iterPoll id convE
        (⟨ob, ⟨cs, dn⟩, into⟩ : Lines (List (List Nat)) O E)).2.buffered
      = some b2) :
    LF ∉ b2 := by
  cases dn with
  | true =>
    exfalso
    cases ob with
    | none => simp [Lines.poll, Fuse.poll, Lines.next] at hres
    | some buffer =>
      rcases hsp : splitFirstLF buffer with ⟨ff, sOpt⟩
      cases sOpt with
      | some s =>
        cases hinto : into (stripCR ff) with
        | ok v => simp [Lines.poll, Fuse.poll, Lines.next, hsp, hinto] at hres
        | error e => simp [Lines.poll, Fuse.poll, Lines.next, hsp, hinto] at hres
      | none =>
        cases hinto : into (stripCR ff) with
        | ok v => simp [Lines.poll, Fuse.poll, Lines.next, hsp, hinto] at hres
        | error e => simp [Lines.poll, Fuse.poll, Lines.next, hsp, hinto] at hres
  | false =>
    cases cs with
    | nil =>
      exfalso
      cases ob with
      | none => simp [Lines.poll, Fuse.poll, iterPoll, Lines.next] at hres
      | some buffer =>
        rcases hsp : splitFirstLF buffer with ⟨ff, sOpt⟩
        cases sOpt with
        | some s =>
          cases hinto : into (stripCR ff) with
          | ok v => simp [Lines.poll, Fuse.poll, iterPoll, Lines.next, hsp, hinto] at hres
          | error e => simp [Lines.poll, Fuse.poll, iterPoll, Lines.next, hsp, hinto] at hres
        | none =>
          cases hinto : into (stripCR ff) with
          | ok v => simp [Lines.poll, Fuse.poll, iterPoll, Lines.next, hsp, hinto] at hres
          | error e => simp [Lines.poll, Fuse.poll, iterPoll, Lines.next, hsp, hinto] at hres
    | cons c rest =>
      cases ob with
      | none =>
        rcases hsp : splitFirstLF c with ⟨ff, sOpt⟩
        cases sOpt with
        | some s =>
          exfalso
          cases hinto : into (stripCR ff) with
          | ok v => simp [Lines.poll, Fuse.poll, iterPoll, Lines.next, hsp, hinto] at hres
          | error e => simp [Lines.poll, Fuse.poll, iterPoll, Lines.next, hsp, hinto] at hres
        | none =>
          simp [Lines.poll, Fuse.poll, iterPoll, Lines.next, hsp] at hbuf
          obtain ⟨hf2, hnf⟩ := splitFirstLF_none hsp
          rw [← hbuf]
          exact hnf
      | some buffer =>
        rcases hsp : splitFirstLF (buffer ++ c) with ⟨ff, sOpt⟩
        cases sOpt with
        | some s =>
          exfalso
          cases hinto : into (stripCR ff) with
          | ok v => simp [Lines.poll, Fuse.poll, iterPoll, Lines.next, hsp, hinto] at hres
          | error e => simp [Lines.poll, Fuse.poll, iterPoll, Lines.next, hsp, hinto] at hres
        | none =>
          simp [Lines.poll, Fuse.poll, iterPoll, Lines.next, hsp] at hbuf
          obtain ⟨hf2, hnf⟩ := splitFirstLF_none hsp
          rw [← hbuf]
          exact hnf

/-- C9 witness: consuming the delimiter-free chunk `"ab"` reports not-ready
and buffers `"ab"`, which contains no line feed. -/
theorem C9_witness : LF ∉ ([97, 98] : List Nat) :=
  C9_no_delimiter_when_not_ready (Except.ok : List Nat → Except Unit (List Nat)) id
    none [[97, 98]] false [97, 98] rfl rfl

/-- C10: the absent/present-but-empty buffer distinction is observable at
the interface: on an exhausted source, a present-but-empty buffer is flushed
as one additional (empty) decoded line and the buffer becomes absent so the
next poll completes, whereas an absent buffer completes immediately; and an
empty chunk arriving while nothing is buffered creates exactly the
present-but-empty buffer state. -/
theorem C10_empty_buffer_vs_absent {O E ε : Type} (into : List Nat → Except E O)
    (convE : E → ε) (v : O) (d : Bool) (rest : List (List Nat))
    (hv : into [] = Except.ok v) :
    Lines.poll iterPoll id convE
        (⟨some [], ⟨[], d⟩, into⟩ : Lines (List (List Nat)) O E)
      = (Except.ok (Async.ready (some v)), ⟨none, ⟨[], true⟩, into⟩) ∧
    Lines.poll iterPoll id convE
        (⟨none, ⟨[], d⟩, into⟩ : Lines (List (List Nat)) O E)
      = (Except.ok (Async.ready none), ⟨none, ⟨[], true⟩, into⟩) ∧
    Lines.poll iterPoll id convE
        (⟨none, ⟨[] :: rest, false⟩, into⟩ : Lines (List (List Nat)) O E)
      = (Except.ok Async.notReady, ⟨some [], ⟨rest, false⟩, into⟩) := by
  refine ⟨?_, ?_, ?_⟩
  · cases d <;>
      simp [Lines.poll, Fuse.poll, iterPoll, Lines.next, splitFirstLF, stripCR, hv]
  · cases d <;> simp [Lines.poll, Fuse.poll, iterPoll, Lines.next]
  · simp [Lines.poll, Fuse.poll, iterPoll, Lines.next, splitFirstLF]

/-- C10 witness: with the identity decode hook, flushing the
present-but-empty buffer emits one empty line; the absent buffer completes
at once; an empty chunk on an empty splitter creates the present-but-empty
buffer. -/
theorem C10_witness :
    Lines.poll iterPoll id (id : Unit → Unit)
        (⟨some [], ⟨[], false⟩, Except.ok⟩ : LinesOk)
      = (Except.ok (Async.ready (some [])), ⟨none, ⟨[], true⟩, Except.ok⟩) ∧
    Lines.poll iterPoll id (id : Unit → Unit)
        (⟨none, ⟨[], false⟩, Except.ok⟩ : LinesOk)
      = (Except.ok (Async.ready none), ⟨none, ⟨[], true⟩, Except.ok⟩) ∧
    Lines.poll iterPoll id (id : Unit → Unit)
        (⟨none, ⟨[[]], false⟩, Except.ok⟩ : LinesOk)
      = (Except.ok Async.notReady, ⟨some [], ⟨[], false⟩, Except.ok⟩) :=
  C10_empty_buffer_vs_absent Except.ok id [] false [] rfl

end StreamLines
